import Mathlib

/-!
Verification development for the VP8/VP9 video converter repository.

The definitions below are a shallow embedding, in Lean, of the Python
code of the repository.  Pure functions become Lean functions, stateful
code becomes explicit state passing, the file system becomes an explicit
list of paths, the wall clock becomes an explicit argument, and Python
exceptions become an explicit error type.  Floating point numbers are
modelled as rationals.
-/

namespace VC

/-! ## Error model

The exception classes of web/video_compressor/exceptions.py.  Messages
are kept short; only the class of the exception matters for the
properties proved here. -/

inductive VCError where
  | invalidInput (msg : String)
  | invalidOutputPath (msg : String)
  | invalidCodec (msg : String)
  | invalidPreset (msg : String)
  | alphaNotSupported (codec : String)
  | compressionFailed (msg : String)
deriving DecidableEq, Repr

/-- String rendering of an exception, as str(e) in Python.  Quotation of
the codec name in the original message is elided. -/
def errMessage : VCError → String
  | .invalidInput m => m
  | .invalidOutputPath m => m
  | .invalidCodec m => m
  | .invalidPreset m => m
  | .alphaNotSupported c => "Alpha channel is only supported with VP9 codec, but " ++ c ++ " was specified"
  | .compressionFailed m => m

/-! ## FFmpegProgressParser (web/video_compressor/progress.py, lines 37 to 83)

The regular expression
frame=,s*(,d+),s+fps=,s*([,d.]+).*?time=(,d+):(,d+):([,d.]+).*?speed=,s*([,d.]+)x
(backslashes written as commas in this comment) is embedded as a
hand-rolled matcher with the exact semantics of re.search on this
pattern: leftmost starting position, greedy character classes, lazy dot
gaps that cannot cross a newline. -/

/-- The Python regex class ,s over ASCII: space, tab, newline, carriage
return, vertical tab, form feed. -/
def pyIsSpace (c : Char) : Bool :=
  c = ' ' || c = '\t' || c = '\n' || c = '\r' || c = '\x0b' || c = '\x0c'

/-- The character class of digits and dot, written [,d.] in the pattern. -/
def isDotDigit (c : Char) : Bool := c.isDigit || c = '.'

/-- Match a literal character sequence, returning the rest of the input. -/
def matchLit : List Char → List Char → Option (List Char)
  | [], s => some s
  | _ :: _, [] => none
  | l :: ls, c :: cs => if c = l then matchLit ls cs else none

/-- Lazy gap: the pattern .*? followed by a continuation.  Tries the
continuation at the current position first, then extends the gap one
character at a time.  The dot of the pattern does not match a newline,
so the gap cannot extend across one. -/
def gapScan {α : Type} (cont : List Char → Option α) : List Char → Option α
  | [] => cont []
  | c :: rest =>
    match cont (c :: rest) with
    | some r => some r
    | none => if c = '\n' then none else gapScan cont rest

/-- Tail of the pattern from speed=: speed=,s*([,d.]+)x.  Returns the
captured speed group. -/
def speedTail (s : List Char) : Option (List Char) :=
  match matchLit "speed=".data s with
  | none => none
  | some s1 =>
    let s2 := s1.dropWhile pyIsSpace
    let g6 := s2.takeWhile isDotDigit
    let s3 := s2.dropWhile isDotDigit
    if g6.isEmpty then none
    else
      match s3 with
      | 'x' :: _ => some g6
      | _ => none

/-- The six captured groups of the progress pattern: frame, fps, hours,
minutes, seconds, speed. -/
structure MatchGroups where
  g1 : List Char
  g2 : List Char
  g3 : List Char
  g4 : List Char
  g5 : List Char
  g6 : List Char
deriving DecidableEq, Repr

/-- Tail of the pattern from time=: time=(,d+):(,d+):([,d.]+).*?speed=...
Returns the captured hours, minutes, seconds and speed groups. -/
def timeTail (s : List Char) : Option (List Char × List Char × List Char × List Char) :=
  match matchLit "time=".data s with
  | none => none
  | some s1 =>
    let g3 := s1.takeWhile Char.isDigit
    let s2 := s1.dropWhile Char.isDigit
    if g3.isEmpty then none
    else
      match s2 with
      | ':' :: s3 =>
        let g4 := s3.takeWhile Char.isDigit
        let s4 := s3.dropWhile Char.isDigit
        if g4.isEmpty then none
        else
          match s4 with
          | ':' :: s5 =>
            let g5 := s5.takeWhile isDotDigit
            let s6 := s5.dropWhile isDotDigit
            if g5.isEmpty then none
            else
              match gapScan speedTail s6 with
              | none => none
              | some g6 => some (g3, g4, g5, g6)
          | _ => none
      | _ => none

/-- The whole pattern anchored at the current position, starting with the
literal frame=.  Returns the six captured groups. -/
def frameTail (s : List Char) : Option MatchGroups :=
  match matchLit "frame=".data s with
  | none => none
  | some s1 =>
    let s2 := s1.dropWhile pyIsSpace
    let g1 := s2.takeWhile Char.isDigit
    let s3 := s2.dropWhile Char.isDigit
    if g1.isEmpty then none
    else
      let ws := s3.takeWhile pyIsSpace
      let s4 := s3.dropWhile pyIsSpace
      if ws.isEmpty then none
      else
        match matchLit "fps=".data s4 with
        | none => none
        | some s5 =>
          let s6 := s5.dropWhile pyIsSpace
          let g2 := s6.takeWhile isDotDigit
          let s7 := s6.dropWhile isDotDigit
          if g2.isEmpty then none
          else
            match gapScan timeTail s7 with
            | none => none
            | some (g3, g4, g5, g6) => some ⟨g1, g2, g3, g4, g5, g6⟩

/-- re.search over the line: try the anchored pattern at every starting
position, leftmost first. -/
def findProgressMatch : List Char → Option MatchGroups
  | [] => frameTail []
  | c :: rest =>
    match frameTail (c :: rest) with
    | some g => some g
    | none => findProgressMatch rest

/-- Python int() on a nonempty run of decimal digits. -/
def natOfDigits (g : List Char) : Nat :=
  g.foldl (fun n c => 10 * n + (c.toNat - '0'.toNat)) 0

/-- Python float() restricted to strings drawn from the class [,d.]+ .
Such a string converts exactly when it has at most one dot and at least
one digit; the value is the usual decimal value. -/
def pyFloat (g : List Char) : Option ℚ :=
  if g.count '.' > 1 then none
  else if !(g.any Char.isDigit) then none
  else
    match g.splitOn '.' with
    | [ip] => some (natOfDigits ip)
    | [ip, fp] => some ((natOfDigits ip : ℚ) + (natOfDigits fp : ℚ) / (10 ^ fp.length : ℚ))
    | _ => none

/-- The dictionary returned by FFmpegProgressParser.parse_progress. -/
structure ProgressSample where
  frame : Nat
  fps : ℚ
  current_time : ℚ
  speed : ℚ
deriving DecidableEq, Repr

/-- FFmpegProgressParser.parse_progress: search the pattern, then convert
the captured groups, returning none when the pattern does not match or a
conversion raises ValueError. -/
def parse_progress (line : List Char) : Option ProgressSample :=
  match findProgressMatch line with
  | none => none
  | some g =>
    match pyFloat g.g2, pyFloat g.g5, pyFloat g.g6 with
    | some fps, some secs, some speed =>
      some { frame := natOfDigits g.g1
             fps := fps
             current_time := (natOfDigits g.g3 : ℚ) * 3600 + (natOfDigits g.g4 : ℚ) * 60 + secs
             speed := speed }
    | _, _, _ => none

/-! ## ProgressTracker (web/video_compressor/progress.py, lines 86 to 157)

The wall clock (time.time()) is passed to each update call as an
explicit argument.  A Python float division by zero raises
ZeroDivisionError, modelled by an explicit error value.  The callback
sink is modelled by returning the event that would be passed to it. -/

inductive PyError where
  | zeroDivision
deriving DecidableEq, Repr

/-- The argument tuple of a progress callback invocation. -/
structure ProgressEvent where
  filename : String
  percentage : ℚ
  current_time : ℚ
  total_time : ℚ
  eta : Option ℚ
deriving DecidableEq, Repr

/-- The mutable fields of ProgressTracker that the update logic reads. -/
structure TrackerState where
  total_duration : ℚ
  filename : String
  last_update_time : ℚ
deriving DecidableEq, Repr

/-- The fixed minimum interval between emissions, 0.5 seconds. -/
def update_interval : ℚ := 1 / 2

/-- ProgressTracker construction: last_update_time starts at 0.0. -/
def mkTracker (total_duration : ℚ) (filename : String) : TrackerState :=
  { total_duration := total_duration, filename := filename, last_update_time := 0 }

/-- ProgressTracker.update.  The throttle check comes first and a sample
inside the interval returns with no state change.  Past the throttle the
wall-clock time is stored, then the percentage division runs, raising
ZeroDivisionError when total_duration is zero. -/
def updateStepE (s : TrackerState) (now current_time speed : ℚ) :
    Except PyError (TrackerState × Option ProgressEvent) :=
  if now - s.last_update_time < update_interval then .ok (s, none)
  else
    let s' := { s with last_update_time := now }
    if s.total_duration = 0 then .error .zeroDivision
    else
      let percentage := min ((current_time / s.total_duration) * 100) 100
      let eta : Option ℚ :=
        if 0 < speed ∧ 0 < current_time then
          some ((s.total_duration - current_time) / speed)
        else none
      .ok (s', some { filename := s.filename, percentage := percentage,
                      current_time := current_time, total_time := s.total_duration,
                      eta := eta })

/-- ProgressTracker.complete: one unconditional terminal event at 100
percent, current_time equal to the total duration, and eta 0; the
throttle state is neither consulted nor changed. -/
def completeStep (s : TrackerState) : ProgressEvent :=
  { filename := s.filename, percentage := 100, current_time := s.total_duration,
    total_time := s.total_duration, eta := some 0 }

/-- Run a sequence of update calls, each given as (wall-clock time,
current_time, speed).  Returns the final state and the emitted events
paired with their wall-clock emission times.  An exception aborts the
run, as it would abort the stderr-reading loop. -/
def runUpdates (s : TrackerState) :
    List (ℚ × ℚ × ℚ) → TrackerState × List (ℚ × ProgressEvent)
  | [] => (s, [])
  | (now, ct, sp) :: rest =>
    match updateStepE s now ct sp with
    | .error _ => (s, [])
    | .ok (s', none) => runUpdates s' rest
    | .ok (s', some ev) =>
      let (sf, evs) := runUpdates s' rest
      (sf, (now, ev) :: evs)

/-- Duration extraction in VideoInfo.from_file
(src/video_compressor/utils.py, line 161): a missing duration field
defaults to 0. -/
def probedDuration (raw : Option ℚ) : ℚ := raw.getD 0

/-! ## Presets (web/video_compressor/presets.py) -/

structure CompressionPreset where
  name : String
  codec : String
  video_bitrate : String
  audio_bitrate : String
  crf : Int
  speed : Int
  format : String := "webm"
  two_pass : Bool := false
  max_resolution : Option (Int × Int) := none
  audio_codec : String := "libopus"
deriving DecidableEq, Repr

/-- The built-in preset table PRESETS. -/
def PRESETS : List (String × CompressionPreset) :=
  [ ("web",
     { name := "Web Optimized", codec := "vp9", video_bitrate := "1M",
       audio_bitrate := "128k", crf := 31, speed := 4, format := "webm",
       two_pass := false, max_resolution := some (1920, 1080) }),
    ("web-small",
     { name := "Web Small", codec := "vp9", video_bitrate := "500k",
       audio_bitrate := "96k", crf := 35, speed := 4, format := "webm",
       two_pass := false, max_resolution := some (1280, 720) }),
    ("archive",
     { name := "Archive Quality", codec := "vp9", video_bitrate := "3M",
       audio_bitrate := "192k", crf := 20, speed := 1, format := "webm",
       two_pass := true, max_resolution := none }),
    ("high-quality",
     { name := "High Quality", codec := "vp9", video_bitrate := "5M",
       audio_bitrate := "256k", crf := 15, speed := 2, format := "webm",
       two_pass := true, max_resolution := none }),
    ("vp8-legacy",
     { name := "VP8 Legacy Compatible", codec := "vp8", video_bitrate := "1M",
       audio_bitrate := "128k", crf := 10, speed := 3, format := "webm",
       two_pass := false, max_resolution := some (1920, 1080) }),
    ("alpha-web",
     { name := "Web with Alpha Channel", codec := "vp9", video_bitrate := "1.5M",
       audio_bitrate := "128k", crf := 28, speed := 3, format := "webm",
       two_pass := false, max_resolution := some (1920, 1080) }) ]

/-- Dictionary lookup by preset name. -/
def findPreset : List (String × CompressionPreset) → String → Option CompressionPreset
  | [], _ => none
  | (k, p) :: rest, n => if k = n then some p else findPreset rest n

/-! ## VideoCompressor (src/video_compressor/compressor.py)

The compressor object: ffmpeg path plus the custom preset dictionary.
The built-in PRESETS dictionary is part of the state as well, because
compress mutates the preset object it looks up in place, and that object
lives in one of the two dictionaries. -/

structure CompressorState where
  ffmpeg_path : String
  custom_presets : List (String × CompressionPreset)
  builtin_presets : List (String × CompressionPreset)
deriving DecidableEq, Repr

/-- VideoCompressor.get_preset: custom presets first, then built-in. -/
def lookupPreset (st : CompressorState) (n : String) : Option CompressionPreset :=
  match findPreset st.custom_presets n with
  | some p => some p
  | none => findPreset st.builtin_presets n

/-- In-place mutation of the codec field of the preset object stored
under a name: the entry stays in its dictionary and only its codec
changes. -/
def setCodecEntry : List (String × CompressionPreset) → String → String →
    List (String × CompressionPreset)
  | [], _, _ => []
  | (k, p) :: rest, n, c =>
    if k = n then (k, { p with codec := c }) :: rest
    else (k, p) :: setCodecEntry rest n c

/-- The effect on the whole compressor state of mutating the codec of
the preset object that get_preset would return for a name. -/
def setPresetCodec (st : CompressorState) (n c : String) : CompressorState :=
  if (findPreset st.custom_presets n).isSome then
    { st with custom_presets := setCodecEntry st.custom_presets n c }
  else
    { st with builtin_presets := setCodecEntry st.builtin_presets n c }

/-- The metadata that VideoInfo.from_file returns. -/
structure VideoInfoM where
  duration : ℚ
  width : Int
  height : Int
  codec : String
  has_alpha : Bool
deriving DecidableEq, Repr

/-- The keyword-argument overrides accepted by compress; a present field
takes precedence over the preset value. -/
structure CustomOptions where
  video_bitrate : Option String := none
  crf : Option Int := none
  speed : Option Int := none
  max_resolution : Option (Option (Int × Int)) := none
  audio_bitrate : Option String := none
deriving DecidableEq, Repr

/-- The scale video filter emitted for a resolution cap. -/
def scaleFilter (mw mh : Int) : String :=
  "scale=min(" ++ toString mw ++ "\\,iw):min(" ++ toString mh ++
    "\\,ih):force_original_aspect_ratio=decrease"

/-- VideoCompressor._build_command: the FFmpeg argument list, built in a
fixed order from the preset, the overrides and the video metadata. -/
def buildCommand (ffmpeg_path input_path output_path : String)
    (preset : CompressionPreset) (preserve_alpha : Bool) (vi : VideoInfoM)
    (opts : CustomOptions) : List String :=
  let cmd := [ffmpeg_path, "-i", input_path]
  let cmd := cmd ++ (if preset.codec = "vp9" then ["-c:v", "libvpx-vp9"] else ["-c:v", "libvpx"])
  let cmd := cmd ++ (if preserve_alpha then
      ["-pix_fmt", "yuva420p", "-auto-alt-ref", "0", "-metadata:s:v:0", "alpha_mode=1"]
    else [])
  let cmd := cmd ++ ["-b:v", opts.video_bitrate.getD preset.video_bitrate,
                     "-crf", toString (opts.crf.getD preset.crf)]
  let cmd := cmd ++ (if preset.codec = "vp9" then
      ["-speed", toString (opts.speed.getD preset.speed)]
    else
      ["-cpu-used", toString (opts.speed.getD preset.speed)])
  let cmd := cmd ++ (match opts.max_resolution.getD preset.max_resolution with
    | some (mw, mh) =>
      if vi.width > mw ∨ vi.height > mh then ["-vf", scaleFilter mw mh] else []
    | none => [])
  let cmd := cmd ++ (if preset.codec = "vp9" then ["-row-mt", "1"] else [])
  let cmd := cmd ++ (if preset.audio_codec ≠ "" then
      ["-c:a", preset.audio_codec, "-b:a", opts.audio_bitrate.getD preset.audio_bitrate]
    else [])
  cmd ++ ["-y", output_path]

/-- CompressionResult (src/video_compressor/compressor.py, lines 26 to 52). -/
structure CompressionResult where
  success : Bool
  input_path : String
  output_path : String
  input_size_mb : ℚ := 0
  output_size_mb : ℚ := 0
  compression_ratio : ℚ := 0
  duration : ℚ := 0
  error : Option String := none
deriving DecidableEq, Repr

/-- The external world one compress call interacts with: the validation
outcomes, the probe outcome and metadata, the file sizes, the encoder
exit code, whether the encoder created the output file, and whether the
cleanup deletion succeeds. -/
structure CompressEnv where
  input_valid : Bool
  output_valid : Bool
  probe_ok : Bool
  video_info : VideoInfoM
  input_size : ℚ
  run_exit : Int
  creates_output : Bool
  output_size : ℚ
  remove_ok : Bool
deriving DecidableEq, Repr

/-- The shared keyword arguments of a compress call. -/
structure SharedArgs where
  preset_name : String
  codec : Option String
  preserve_alpha : Bool
  opts : CustomOptions
deriving DecidableEq, Repr

/-- The observable outcome of one compress call: the returned value or
raised exception, the compressor state after the call, the file system
after the call, and the external process invocations it spawned. -/
structure CompressOut where
  result : Except VCError CompressionResult
  state : CompressorState
  fs : List String
  spawns : List (List String)
deriving Repr

/-- The ffprobe invocation made by VideoInfo.from_file. -/
def ffprobeCmd (input_path : String) : List String :=
  ["ffprobe", "-v", "quiet", "-print_format", "json", "-show_streams",
   "-show_format", input_path]

/-- The part of VideoCompressor.compress after the codec override has
been resolved: the alpha check, the probe, the command build, the
encoder run, and on failure the best-effort cleanup of a partial output
file.  The parameter p is the effective preset and st1 the compressor
state after the possible in-place mutation. -/
def compressAfterOverride (st1 : CompressorState) (env : CompressEnv)
    (input_path output_path : String) (a : SharedArgs) (fs : List String)
    (p : CompressionPreset) : CompressOut :=
  if a.preserve_alpha = true ∧ p.codec ≠ "vp9" then
    ⟨.error (.alphaNotSupported p.codec), st1, fs, []⟩
  else if env.probe_ok = false then
    ⟨.error (.invalidInput ("Failed to read video metadata from " ++ input_path)),
     st1, fs, [ffprobeCmd input_path]⟩
  else
    let cmd := buildCommand st1.ffmpeg_path input_path output_path p
      a.preserve_alpha env.video_info a.opts
    let fsRun := if env.creates_output then output_path :: fs else fs
    let spawns := [ffprobeCmd input_path, cmd]
    if env.run_exit ≠ 0 then
      let fsClean :=
        if output_path ∈ fsRun then
          if env.remove_ok then fsRun.filter (fun q => q ≠ output_path) else fsRun
        else fsRun
      ⟨.error (.compressionFailed
         ("FFmpeg failed with return code " ++ toString env.run_exit)),
       st1, fsClean, spawns⟩
    else
      let outSize := if output_path ∈ fsRun then env.output_size else 0
      let ratio := if 0 < outSize then env.input_size / outSize else 0
      ⟨.ok { success := true, input_path := input_path, output_path := output_path,
             input_size_mb := env.input_size, output_size_mb := outSize,
             compression_ratio := ratio, duration := env.video_info.duration,
             error := none },
       st1, fsRun, spawns⟩

/-- VideoCompressor.compress (src/video_compressor/compressor.py, lines
95 to 190).  Order of effects as in the source: input validation, output
validation, preset lookup, codec override with in-place mutation of the
shared preset object, then the rest of the call. -/
def compress (st : CompressorState) (env : CompressEnv)
    (input_path output_path : String) (a : SharedArgs) (fs : List String) :
    CompressOut :=
  if env.input_valid = false then
    ⟨.error (.invalidInput ("Input file not found: " ++ input_path)), st, fs, []⟩
  else if env.output_valid = false then
    ⟨.error (.invalidOutputPath ("Invalid output path: " ++ output_path)), st, fs, []⟩
  else
    match lookupPreset st a.preset_name with
    | none => ⟨.error (.invalidPreset ("Unknown preset " ++ a.preset_name)), st, fs, []⟩
    | some p0 =>
      let checked : Except VCError (CompressionPreset × CompressorState) :=
        match a.codec with
        | none => .ok (p0, st)
        | some c =>
          if c = "vp8" ∨ c = "vp9" then
            .ok ({ p0 with codec := c }, setPresetCodec st a.preset_name c)
          else .error (.invalidCodec ("Invalid codec: " ++ c))
      match checked with
      | .error e => ⟨.error e, st, fs, []⟩
      | .ok (p, st1) => compressAfterOverride st1 env input_path output_path a fs p

/-! ## BatchCompressor (web/video_compressor/batch.py) -/

/-- Default result value used only to totalise list indexing. -/
def defaultResult : CompressionResult :=
  { success := false, input_path := "", output_path := "" }

/-- BatchCompressor._compress_single: run compress and convert any
raised exception into a failed result tagged with the input and output
paths.  Nothing escapes. -/
def compressSingle (st : CompressorState) (fs : List String)
    (input_path output_path : String) (a : SharedArgs) (env : CompressEnv) :
    CompressionResult × CompressorState × List String :=
  match compress st env input_path output_path a fs with
  | ⟨.ok r, st', fs', _⟩ => (r, st', fs')
  | ⟨.error e, st', fs', _⟩ =>
    ({ success := false, input_path := input_path, output_path := output_path,
       error := some (errMessage e) }, st', fs')

/-- Split a character list on a separator character; the groups do not
contain the separator and empty groups are kept. -/
def splitOnChar (sep : Char) : List Char → List (List Char)
  | [] => [[]]
  | c :: rest =>
    match splitOnChar sep rest with
    | [] => [[]]
    | g :: gs => if c = sep then [] :: g :: gs else (c :: g) :: gs

/-- The portion of a path after the last slash, as os.path.basename on a
plain relative or absolute path. -/
def pyBasename (s : String) : String :=
  String.mk ((splitOnChar '/' s.data).getLastD s.data)

/-- The stem of a file name: os.path.splitext drops the part from the
last dot on.  The special case of a lone leading dot is not modelled;
no claim exercises it. -/
def pySplitextStem (s : String) : String :=
  let parts := splitOnChar '.' s.data
  if parts.length ≤ 1 then s
  else String.mk (List.intercalate ['.'] parts.dropLast)

/-- BatchCompressor._build_file_pairs: explicit pairs pass through, bare
input paths need an output directory and get a derived .webm output
path; a bare path with no output directory raises ValueError. -/
def build_file_pairs (files : List (String ⊕ (String × String)))
    (output_dir : Option String) : Except String (List (String × String)) :=
  match files with
  | [] => .ok []
  | .inr (i, o) :: rest =>
    match build_file_pairs rest output_dir with
    | .error e => .error e
    | .ok pairs => .ok ((i, o) :: pairs)
  | .inl i :: rest =>
    match output_dir with
    | none => .error "output_dir must be provided when files are input paths only"
    | some d =>
      match build_file_pairs rest output_dir with
      | .error e => .error e
      | .ok pairs => .ok ((i, d ++ "/" ++ pySplitextStem (pyBasename i) ++ ".webm") :: pairs)

/-- Run the submitted jobs, threading the shared compressor state and
the file system through the per-job runs.  Produces one result per job,
in submission order. -/
def runJobs (st : CompressorState) (fs : List String) (a : SharedArgs) :
    List ((String × String) × CompressEnv) →
      List CompressionResult × CompressorState × List String
  | [] => ([], st, fs)
  | ((i, o), env) :: rest =>
    let (r, st', fs') := compressSingle st fs i o a env
    let (rs, st2, fs2) := runJobs st' fs' a rest
    (r :: rs, st2, fs2)

/-- BatchCompressor.compress_batch: build the file pairs, run every job,
and collect the results in completion order.  The completion order of
the thread pool is an arbitrary permutation of the submitted indices,
passed here as an explicit parameter. -/
def compress_batch (st : CompressorState) (fs : List String)
    (files : List (String ⊕ (String × String))) (output_dir : Option String)
    (a : SharedArgs) (envs : List CompressEnv) (perm : List Nat) :
    Except String (List CompressionResult) :=
  match build_file_pairs files output_dir with
  | .error e => .error e
  | .ok pairs =>
    let jobs := pairs.zip envs
    let rs := (runJobs st fs a jobs).1
    .ok (perm.map (fun i => rs.getD i defaultResult))

/-! ## BatchProgress (web/video_compressor/batch.py, lines 239 to 277) -/

/-- The per-file progress dictionary: association list keyed by file
name.  Assignment replaces the entry if present, else appends. -/
def setFP : List (String × ℚ) → String → ℚ → List (String × ℚ)
  | [], f, p => [(f, p)]
  | (k, v) :: rest, f, p =>
    if k = f then (f, p) :: rest else (k, v) :: setFP rest f p

/-- Dictionary get with default 0.0. -/
def getFP : List (String × ℚ) → String → ℚ
  | [], _ => 0
  | (k, v) :: rest, f => if k = f then v else getFP rest f

structure BatchProgressS where
  total_files : Nat
  completed_files : Nat
  file_progress : List (String × ℚ)
deriving DecidableEq, Repr

/-- BatchProgress construction. -/
def initBP (total_files : Nat) : BatchProgressS :=
  { total_files := total_files, completed_files := 0, file_progress := [] }

/-- BatchProgress.update_file_progress: record the percentage and
increment the completed count when the recorded value crosses from
below 100 to at least 100. -/
def update_file_progress (bp : BatchProgressS) (filename : String) (percentage : ℚ) :
    BatchProgressS :=
  let old := getFP bp.file_progress filename
  { bp with
    file_progress := setFP bp.file_progress filename percentage
    completed_files :=
      if old < 100 ∧ 100 ≤ percentage then bp.completed_files + 1
      else bp.completed_files }

/-- Fold a sequence of update_file_progress calls. -/
def runBP (bp : BatchProgressS) : List (String × ℚ) → BatchProgressS
  | [] => bp
  | (f, p) :: rest => runBP (update_file_progress bp f p) rest

/-- BatchProgress.overall_percentage. -/
def overall_percentage (bp : BatchProgressS) : ℚ :=
  if bp.file_progress.isEmpty then 0
  else (bp.file_progress.map Prod.snd).sum / (bp.total_files : ℚ)

/-! ## Helper lemmas -/

/-- Evaluation rule for pyFloat on a group holding exactly one dot. -/
theorem pyFloat_frac (g ip fp : List Char) (q : ℚ)
    (hsplit : g.splitOn '.' = [ip, fp])
    (hcount : g.count '.' ≤ 1)
    (hdig : g.any Char.isDigit = true)
    (hval : (natOfDigits ip : ℚ) + (natOfDigits fp : ℚ) / 10 ^ fp.length = q) :
    pyFloat g = some q := by
  unfold pyFloat
  rw [if_neg (by omega), if_neg (by simp [hdig]), hsplit]
  exact congrArg some hval

/-- The example status line of the specification. -/
def exampleLine : List Char :=
  "frame=  10 fps=30.0 q=28.0 size=100kB time=00:01:30.50 bitrate=900kbits/s speed=2.0x".data

theorem pyFloat_ex_fps : pyFloat "30.0".data = some 30 := by
  have h1 : natOfDigits "30".data = 30 := by decide
  have h2 : natOfDigits "0".data = 0 := by decide
  refine pyFloat_frac _ "30".data "0".data _ (by decide) (by decide) (by decide) ?_
  rw [h1, h2]; norm_num

theorem pyFloat_ex_secs : pyFloat "30.50".data = some (61 / 2) := by
  have h1 : natOfDigits "30".data = 30 := by decide
  have h2 : natOfDigits "50".data = 50 := by decide
  refine pyFloat_frac _ "30".data "50".data _ (by decide) (by decide) (by decide) ?_
  rw [h1, h2]; norm_num

theorem pyFloat_ex_speed : pyFloat "2.0".data = some 2 := by
  have h1 : natOfDigits "2".data = 2 := by decide
  have h2 : natOfDigits "0".data = 0 := by decide
  refine pyFloat_frac _ "2".data "0".data _ (by decide) (by decide) (by decide) ?_
  rw [h1, h2]; norm_num

/-- A converted float group is nonnegative: it is built from digit
values only. -/
theorem pyFloat_nonneg (g : List Char) (q : ℚ) (h : pyFloat g = some q) :
    0 ≤ q := by
  unfold pyFloat at h
  split_ifs at h
  rcases hs : g.splitOn '.' with _ | ⟨ip, _ | ⟨fp, _ | _⟩⟩ <;> rw [hs] at h
  · cases h
  · cases h
    positivity
  · cases h
    positivity
  · cases h

/-- Every sample the parser produces carries a nonnegative current
time: update is only ever called on such samples, which justifies the
lower clamp reading of the percentage formula. -/
theorem parse_progress_current_time_nonneg (line : List Char) (s : ProgressSample)
    (h : parse_progress line = some s) : 0 ≤ s.current_time := by
  unfold parse_progress at h
  rcases hf : findProgressMatch line with _ | g <;> rw [hf] at h
  · cases h
  · dsimp only at h
    rcases h2 : pyFloat g.g2 with _ | v2 <;> rw [h2] at h <;> try cases h
    rcases h5 : pyFloat g.g5 with _ | v5 <;> rw [h5] at h <;> try cases h
    rcases h6 : pyFloat g.g6 with _ | v6 <;> rw [h6] at h <;> cases h
    have hv5 := pyFloat_nonneg g.g5 v5 h5
    simp only
    positivity

/-! ## Claim C6 -/

/-- C6: parse_progress is stateless and total over text lines: a line on
which the frame/fps/time/speed pattern matches with numerically
convertible groups yields the sample with current_time equal to
hours times 3600 plus minutes times 60 plus seconds together with the
trailing speed multiplier; a non-matching line yields none; a matching
line with a non-convertible captured group yields none; and the concrete
example status line parses to current_time 90.5 and speed 2.0.
Totality, that no line raises, is the fact that parse_progress is a
total function into Option. -/
theorem parse_progress_spec (line : List Char) :
    (findProgressMatch line = none → parse_progress line = none) ∧
    (∀ g, findProgressMatch line = some g →
      ((pyFloat g.g2 = none ∨ pyFloat g.g5 = none ∨ pyFloat g.g6 = none) →
          parse_progress line = none) ∧
      (∀ vfps vsec vsp, pyFloat g.g2 = some vfps → pyFloat g.g5 = some vsec →
          pyFloat g.g6 = some vsp →
          parse_progress line = some
            { frame := natOfDigits g.g1, fps := vfps,
              current_time := (natOfDigits g.g3 : ℚ) * 3600 +
                (natOfDigits g.g4 : ℚ) * 60 + vsec,
              speed := vsp })) ∧
    parse_progress exampleLine =
      some { frame := 10, fps := 30, current_time := 181 / 2, speed := 2 } := by
  refine ⟨?_, ?_, ?_⟩
  · intro h
    simp only [parse_progress, h]
  · intro g hg
    constructor
    · intro hnone
      rcases h2 : pyFloat g.g2 with _ | v2 <;>
        rcases h5 : pyFloat g.g5 with _ | v5 <;>
        rcases h6 : pyFloat g.g6 with _ | v6 <;>
        simp_all [parse_progress]
    · intro vfps vsec vsp h2 h5 h6
      simp only [parse_progress, hg, h2, h5, h6]
  · have hfind : findProgressMatch exampleLine =
        some ⟨"10".data, "30.0".data, "00".data, "01".data, "30.50".data, "2.0".data⟩ := by
      decide
    have h1 : natOfDigits "10".data = 10 := by decide
    have h3 : natOfDigits "00".data = 0 := by decide
    have h4 : natOfDigits "01".data = 1 := by decide
    have hf2 : pyFloat ['3', '0', '.', '0'] = some 30 := pyFloat_ex_fps
    have hf5 : pyFloat ['3', '0', '.', '5', '0'] = some (61 / 2) := pyFloat_ex_secs
    have hf6 : pyFloat ['2', '.', '0'] = some 2 := pyFloat_ex_speed
    simp only [parse_progress, hfind, hf2, hf5, hf6, h1, h3, h4]
    norm_num

/-- Witness for C6: the universal statement applied at the two concrete
lines, the non-matching line with its hypothesis discharged by
computation. -/
theorem parse_progress_spec_witness :
    parse_progress "not a progress line".data = none ∧
    parse_progress exampleLine =
      some { frame := 10, fps := 30, current_time := 181 / 2, speed := 2 } :=
  ⟨(parse_progress_spec "not a progress line".data).1 (by decide),
   (parse_progress_spec exampleLine).2.2⟩

/-! ## Tracker step lemmas -/

theorem updateStepE_throttled {s : TrackerState} {now : ℚ} (ct sp : ℚ)
    (h : now - s.last_update_time < update_interval) :
    updateStepE s now ct sp = .ok (s, none) := by
  unfold updateStepE
  rw [if_pos h]

theorem updateStepE_zero {s : TrackerState} {now : ℚ} (ct sp : ℚ)
    (h : ¬ now - s.last_update_time < update_interval)
    (hz : s.total_duration = 0) :
    updateStepE s now ct sp = .error .zeroDivision := by
  unfold updateStepE
  rw [if_neg h, if_pos hz]

theorem updateStepE_emit {s : TrackerState} {now : ℚ} (ct sp : ℚ)
    (h : ¬ now - s.last_update_time < update_interval)
    (hz : s.total_duration ≠ 0) :
    updateStepE s now ct sp = .ok ({ s with last_update_time := now },
      some { filename := s.filename,
             percentage := min ((ct / s.total_duration) * 100) 100,
             current_time := ct, total_time := s.total_duration,
             eta := if 0 < sp ∧ 0 < ct then some ((s.total_duration - ct) / sp)
                    else none }) := by
  unfold updateStepE
  rw [if_neg h, if_neg hz]

/-- Emission times of a run are separated by at least the throttle
interval, including from the initial last_update_time. -/
theorem runUpdates_chain (calls : List (ℚ × ℚ × ℚ)) (s : TrackerState) :
    List.Chain' (fun a b => a + update_interval ≤ b)
      (s.last_update_time :: ((runUpdates s calls).2.map Prod.fst)) := by
  induction calls generalizing s with
  | nil => simp [runUpdates]
  | cons c rest ih =>
    obtain ⟨now, ct, sp⟩ := c
    by_cases h : now - s.last_update_time < update_interval
    · have := ih s
      unfold runUpdates
      rw [updateStepE_throttled ct sp h]
      exact this
    · by_cases hz : s.total_duration = 0
      · unfold runUpdates
        rw [updateStepE_zero ct sp h hz]
        simp
      · have h2 := ih { s with last_update_time := now }
        unfold runUpdates
        rw [updateStepE_emit ct sp h hz]
        rcases hE : runUpdates { s with last_update_time := now } rest with ⟨sf, evs⟩
        rw [hE] at h2
        simp only [hE, List.map_cons]
        refine List.chain'_cons.mpr ⟨?_, h2⟩
        have := not_lt.mp h
        linarith

/-! ## Claim C3 -/

/-- C3: on any sequence of update calls the sink receives events whose
wall-clock times are pairwise at least the 0.5 second throttle interval
apart; a call arriving inside the interval is dropped with no state
change, not queued; and complete always emits its terminal event at 100
percent, independent of the throttle state. -/
theorem throttle_spec (s : TrackerState) (calls : List (ℚ × ℚ × ℚ)) :
    List.Pairwise (fun a b => a + update_interval ≤ b)
      (((runUpdates s calls).2).map Prod.fst) ∧
    (∀ s0 : TrackerState, ∀ now ct sp : ℚ,
      now - s0.last_update_time < update_interval →
      updateStepE s0 now ct sp = .ok (s0, none)) ∧
    (∀ s0 : TrackerState, completeStep s0 =
      { filename := s0.filename, percentage := 100, current_time := s0.total_duration,
        total_time := s0.total_duration, eta := some 0 }) := by
  refine ⟨?_, ?_, ?_⟩
  · haveI : IsTrans ℚ (fun a b => a + update_interval ≤ b) := by
      constructor
      intro a b c hab hbc
      have : (0 : ℚ) ≤ update_interval := by norm_num [update_interval]
      simp only at hab hbc ⊢
      linarith
    have hchain := runUpdates_chain calls s
    have := hchain.tail
    exact List.chain'_iff_pairwise.mp this
  · intro s0 now ct sp h
    exact updateStepE_throttled ct sp h
  · intro s0
    rfl

/-- Witness for C3 at concrete inputs: a throttled call is dropped with
no state change, and a run with two close calls emits once. -/
theorem throttle_spec_witness :
    List.Pairwise (fun a b => a + update_interval ≤ b)
      (((runUpdates (mkTracker 10 "f") [(1, 2, 1), (5/4, 3, 1)]).2).map Prod.fst) ∧
    updateStepE { total_duration := 10, filename := "f", last_update_time := 1 }
      (5/4) 3 1 = .ok ({ total_duration := 10, filename := "f", last_update_time := 1 }, none) ∧
    completeStep (mkTracker 10 "f") =
      { filename := "f", percentage := 100, current_time := 10,
        total_time := 10, eta := some 0 } :=
  ⟨(throttle_spec (mkTracker 10 "f") [(1, 2, 1), (5/4, 3, 1)]).1,
   (throttle_spec (mkTracker 10 "f") []).2.1
     { total_duration := 10, filename := "f", last_update_time := 1 } (5/4) 3 1
     (by norm_num [update_interval]),
   (throttle_spec (mkTracker 10 "f") []).2.2 (mkTracker 10 "f")⟩

/-! ## Claim C4 -/

/-- C4: an update call that passes the throttle emits an event whose
percentage is the current over total time ratio scaled to 100 and
clamped to the interval from 0 to 100, whose eta is the remaining
duration divided by the speed exactly when speed and current time are
positive and is absent otherwise; in particular at current_time equal to
the total duration with speed 1 the event reads percentage 100 and
eta 0.  The lower clamp agrees with the code because current time from
the parser is never negative. -/
theorem update_percentage_eta_spec (s : TrackerState) (now ct sp : ℚ)
    (hthrottle : ¬ now - s.last_update_time < update_interval)
    (hpos : 0 < s.total_duration) (hct : 0 ≤ ct) :
    updateStepE s now ct sp = .ok ({ s with last_update_time := now },
      some { filename := s.filename,
             percentage := min (max ((ct / s.total_duration) * 100) 0) 100,
             current_time := ct, total_time := s.total_duration,
             eta := if 0 < sp ∧ 0 < ct then some ((s.total_duration - ct) / sp)
                    else none }) ∧
    (ct = s.total_duration → sp = 1 →
      updateStepE s now ct sp = .ok ({ s with last_update_time := now },
        some { filename := s.filename, percentage := 100, current_time := ct,
               total_time := s.total_duration, eta := some 0 })) := by
  have hx : (0 : ℚ) ≤ (ct / s.total_duration) * 100 :=
    mul_nonneg (div_nonneg hct hpos.le) (by norm_num)
  constructor
  · rw [updateStepE_emit ct sp hthrottle (ne_of_gt hpos)]
    rw [max_eq_left hx]
  · intro hct2 hsp
    rw [updateStepE_emit ct sp hthrottle (ne_of_gt hpos)]
    subst hct2 hsp
    rw [div_self (ne_of_gt hpos)]
    norm_num [hpos]

/-- Witness for C4 at total_duration 4, an update at current_time 4 with
speed 1 passing the throttle. -/
theorem update_percentage_eta_spec_witness :
    updateStepE (mkTracker 4 "f") 1 4 1 = .ok
      ({ total_duration := 4, filename := "f", last_update_time := 1 },
       some { filename := "f", percentage := 100, current_time := 4,
              total_time := 4, eta := some 0 }) :=
  (update_percentage_eta_spec (mkTracker 4 "f") 1 4 1
    (by norm_num [mkTracker, update_interval]) (by norm_num [mkTracker])
    (by norm_num)).2 rfl rfl

/-! ## Claim C10 -/

/-- C10: a tracker built with total_duration 0, which is what the probed
metadata produces when the duration field is missing, raises a division
by zero error on any update call that passes the throttle; with a
nonzero total_duration no update call raises. -/
theorem update_zero_duration_spec :
    probedDuration none = 0 ∧
    (∀ (s : TrackerState) (now ct sp : ℚ), s.total_duration = 0 →
      ¬ now - s.last_update_time < update_interval →
      updateStepE s now ct sp = .error .zeroDivision) ∧
    (∀ (s : TrackerState) (now ct sp : ℚ), s.total_duration ≠ 0 →
      ∃ out, updateStepE s now ct sp = .ok out) := by
  refine ⟨rfl, ?_, ?_⟩
  · intro s now ct sp hz h
    exact updateStepE_zero ct sp h hz
  · intro s now ct sp hz
    by_cases h : now - s.last_update_time < update_interval
    · exact ⟨(s, none), updateStepE_throttled ct sp h⟩
    · exact ⟨_, updateStepE_emit ct sp h hz⟩

/-- Witness for C10: the tracker built from a probe with no duration
raises on an update that passes the throttle, and a tracker with
duration 4 does not raise there. -/
theorem update_zero_duration_spec_witness :
    updateStepE (mkTracker (probedDuration none) "f") 1 2 1 = .error .zeroDivision ∧
    ∃ out, updateStepE (mkTracker 4 "f") 1 2 1 = .ok out :=
  ⟨update_zero_duration_spec.2.1 (mkTracker (probedDuration none) "f") 1 2 1 rfl
    (by norm_num [mkTracker, probedDuration, update_interval]),
   update_zero_duration_spec.2.2 (mkTracker 4 "f") 1 2 1 (by norm_num [mkTracker])⟩

/-! ## Claim C5 -/

/-- The codec the alpha check sees: the explicit override when present,
else the preset codec. -/
def effCodec (a : SharedArgs) (p : CompressionPreset) : String :=
  match a.codec with
  | some c => c
  | none => p.codec

/-- C5: a request with alpha preservation and an effective codec other
than vp9 fails with AlphaChannelNotSupportedError, whatever the bitrate
and quality overrides, and the failure comes before any external
process is spawned: the spawn trace of the call is empty. -/
theorem alpha_rejected_before_spawn (st : CompressorState) (env : CompressEnv)
    (input_path output_path : String) (a : SharedArgs) (fs : List String)
    (p : CompressionPreset)
    (hin : env.input_valid = true) (hout : env.output_valid = true)
    (hp : lookupPreset st a.preset_name = some p)
    (halpha : a.preserve_alpha = true)
    (hcodec : (a.codec = none ∧ p.codec ≠ "vp9") ∨ a.codec = some "vp8") :
    (compress st env input_path output_path a fs).result =
      .error (.alphaNotSupported (effCodec a p)) ∧
    (compress st env input_path output_path a fs).spawns = [] := by
  rcases hcodec with ⟨hc, hvp⟩ | hc
  · have hcmp : compress st env input_path output_path a fs =
        ⟨.error (.alphaNotSupported p.codec), st, fs, []⟩ := by
      unfold compress compressAfterOverride
      rw [hin, hout, hp, hc]
      simp [halpha, hvp]
    rw [hcmp]
    simp [effCodec, hc]
  · have hcmp : compress st env input_path output_path a fs =
        ⟨.error (.alphaNotSupported "vp8"),
         setPresetCodec st a.preset_name "vp8", fs, []⟩ := by
      unfold compress compressAfterOverride
      rw [hin, hout, hp, hc]
      simp [halpha]
    rw [hcmp]
    simp [effCodec, hc]

/-- Witness for C5: alpha requested on the vp8-legacy preset with no
override, and alpha requested on the web preset with a vp8 override. -/
theorem alpha_rejected_before_spawn_witness :
    (compress ⟨"ffmpeg", [], PRESETS⟩
      ⟨true, true, true, ⟨10, 1280, 720, "h264", false⟩, 1, 0, true, 1, true⟩
      "in.mp4" "out.webm" ⟨"vp8-legacy", none, true, {}⟩ []).result =
      .error (.alphaNotSupported "vp8") ∧
    (compress ⟨"ffmpeg", [], PRESETS⟩
      ⟨true, true, true, ⟨10, 1280, 720, "h264", false⟩, 1, 0, true, 1, true⟩
      "in.mp4" "out.webm" ⟨"vp8-legacy", none, true, {}⟩ []).spawns = [] :=
  alpha_rejected_before_spawn ⟨"ffmpeg", [], PRESETS⟩
    ⟨true, true, true, ⟨10, 1280, 720, "h264", false⟩, 1, 0, true, 1, true⟩
    "in.mp4" "out.webm" ⟨"vp8-legacy", none, true, {}⟩ []
    ((PRESETS.map Prod.snd).get ⟨4, by decide⟩)
    rfl rfl (by decide) rfl (Or.inl ⟨rfl, by decide⟩)

/-! ## Mutation lemmas for the shared preset table -/

theorem findPreset_setCodecEntry (l : List (String × CompressionPreset)) (n c : String) :
    findPreset (setCodecEntry l n c) n =
      (findPreset l n).map (fun p => { p with codec := c }) := by
  induction l with
  | nil => rfl
  | cons kv rest ih =>
    obtain ⟨k, p⟩ := kv
    by_cases h : k = n <;> simp [setCodecEntry, findPreset, h, ih]

theorem findPreset_setCodecEntry_isSome (l : List (String × CompressionPreset))
    (n c m : String) :
    (findPreset (setCodecEntry l n c) m).isSome = (findPreset l m).isSome := by
  induction l with
  | nil => rfl
  | cons kv rest ih =>
    obtain ⟨k, p⟩ := kv
    by_cases h : k = n
    · subst h
      by_cases hm : k = m
      · subst hm; simp [setCodecEntry, findPreset]
      · simp [setCodecEntry, findPreset, hm]
    · by_cases hm : k = m
      · subst hm
        simp [setCodecEntry, findPreset, h]
      · simp [setCodecEntry, findPreset, h, hm, ih]

/-- Looking up the mutated name returns the stored object with its codec
overwritten. -/
theorem lookupPreset_setPresetCodec (st : CompressorState) (n c : String) :
    lookupPreset (setPresetCodec st n c) n =
      (lookupPreset st n).map (fun p => { p with codec := c }) := by
  unfold lookupPreset setPresetCodec
  by_cases h : (findPreset st.custom_presets n).isSome
  · rw [if_pos h]
    obtain ⟨p, hp⟩ := Option.isSome_iff_exists.mp h
    simp [findPreset_setCodecEntry, hp]
  · rw [if_neg h]
    have hc : findPreset st.custom_presets n = none := by
      rcases hn : findPreset st.custom_presets n with _ | p
      · rfl
      · rw [hn] at h; simp at h
    simp [hc, findPreset_setCodecEntry]

theorem setPresetCodec_ffmpeg_path (st : CompressorState) (n c : String) :
    (setPresetCodec st n c).ffmpeg_path = st.ffmpeg_path := by
  unfold setPresetCodec
  split <;> rfl

/-- Every branch after the override returns the state it was given: the
call mutates the preset table only through the override. -/
theorem compressAfterOverride_state (st1 : CompressorState) (env : CompressEnv)
    (input_path output_path : String) (a : SharedArgs) (fs : List String)
    (p : CompressionPreset) :
    (compressAfterOverride st1 env input_path output_path a fs p).state = st1 := by
  unfold compressAfterOverride
  repeat' split
  all_goals rfl

/-! ## Claim C9 -/

/-- C9: a compress call carrying a valid codec override mutates the
shared preset object in place: whatever happens later in the call, the
state it leaves behind resolves the same preset name to the stored
object with the overridden codec, and a later compress call naming that
preset with no codec argument builds its command from the overridden
codec, not the original one. -/
theorem codec_override_mutates_preset (st : CompressorState) (env : CompressEnv)
    (input_path output_path : String) (a : SharedArgs) (fs : List String)
    (c : String) (p : CompressionPreset)
    (hin : env.input_valid = true) (hout : env.output_valid = true)
    (hp : lookupPreset st a.preset_name = some p)
    (hc : a.codec = some c) (hvalid : c = "vp8" ∨ c = "vp9") :
    (compress st env input_path output_path a fs).state =
      setPresetCodec st a.preset_name c ∧
    lookupPreset (compress st env input_path output_path a fs).state a.preset_name =
      some { p with codec := c } ∧
    (∀ (env2 : CompressEnv) (in2 out2 : String) (fs2 : List String) (b : SharedArgs),
      env2.input_valid = true → env2.output_valid = true → env2.probe_ok = true →
      b.preset_name = a.preset_name → b.codec = none → b.preserve_alpha = false →
      (compress (compress st env input_path output_path a fs).state
          env2 in2 out2 b fs2).spawns =
        [ffprobeCmd in2,
         buildCommand st.ffmpeg_path in2 out2 { p with codec := c } false
           env2.video_info b.opts]) := by
  have hstate : (compress st env input_path output_path a fs).state =
      setPresetCodec st a.preset_name c := by
    unfold compress
    rw [hin, hout, hp, hc]
    rcases hvalid with h | h <;> subst h <;>
      simp only [String.reduceEq, or_false, false_or, or_true, true_or, or_self,
        reduceIte, Bool.true_eq_false, if_false] <;>
      exact compressAfterOverride_state ..
  refine ⟨hstate, ?_, ?_⟩
  · rw [hstate, lookupPreset_setPresetCodec, hp]
    rfl
  · intro env2 in2 out2 fs2 b hin2 hout2 hprobe2 hname hbc hbal
    rw [hstate]
    have hlook : lookupPreset (setPresetCodec st a.preset_name c) b.preset_name =
        some { p with codec := c } := by
      rw [hname, lookupPreset_setPresetCodec, hp]
      rfl
    unfold compress compressAfterOverride
    rw [hin2, hout2, hlook, hbc, hbal, hprobe2]
    simp only [Bool.true_eq_false, Bool.false_eq_true, false_and, if_false, reduceIte]
    rw [setPresetCodec_ffmpeg_path]
    split <;> rfl

/-- Witness for C9: overriding the codec of the web preset to vp8
persists, and a later call on the web preset with no override selects
the vp8 encoder in its command. -/
theorem codec_override_mutates_preset_witness :
    (compress ⟨"ffmpeg", [], PRESETS⟩
        ⟨true, true, true, ⟨10, 1280, 720, "h264", false⟩, 1, 0, true, 1, true⟩
        "in.mp4" "out.webm" ⟨"web", some "vp8", false, {}⟩ []).state =
      setPresetCodec ⟨"ffmpeg", [], PRESETS⟩ "web" "vp8" ∧
    lookupPreset (compress ⟨"ffmpeg", [], PRESETS⟩
        ⟨true, true, true, ⟨10, 1280, 720, "h264", false⟩, 1, 0, true, 1, true⟩
        "in.mp4" "out.webm" ⟨"web", some "vp8", false, {}⟩ []).state "web" =
      some { name := "Web Optimized", codec := "vp8", video_bitrate := "1M",
             audio_bitrate := "128k", crf := 31, speed := 4, format := "webm",
             two_pass := false, max_resolution := some (1920, 1080),
             audio_codec := "libopus" } := by
  have h := codec_override_mutates_preset ⟨"ffmpeg", [], PRESETS⟩
    ⟨true, true, true, ⟨10, 1280, 720, "h264", false⟩, 1, 0, true, 1, true⟩
    "in.mp4" "out.webm" ⟨"web", some "vp8", false, {}⟩ [] "vp8"
    ((PRESETS.map Prod.snd).get ⟨0, by decide⟩)
    rfl rfl (by decide) rfl (Or.inl rfl)
  exact ⟨h.1, h.2.1⟩

/-! ## Claim C2 -/

theorem setCodecEntry_idem (l : List (String × CompressionPreset)) (n c : String) :
    setCodecEntry (setCodecEntry l n c) n c = setCodecEntry l n c := by
  induction l with
  | nil => rfl
  | cons kv rest ih =>
    obtain ⟨k, p⟩ := kv
    by_cases h : k = n <;> simp [setCodecEntry, h, ih]

theorem setPresetCodec_idem (st : CompressorState) (n c : String) :
    setPresetCodec (setPresetCodec st n c) n c = setPresetCodec st n c := by
  unfold setPresetCodec
  by_cases h : (findPreset st.custom_presets n).isSome
  · rw [if_pos h]
    rw [if_pos (by rw [findPreset_setCodecEntry_isSome]; exact h)]
    simp [setCodecEntry_idem]
  · rw [if_neg h, if_neg (by simpa using h)]
    simp [setCodecEntry_idem]

/-- A concrete compressor over the built-in presets. -/
def exState : CompressorState := ⟨"ffmpeg", [], PRESETS⟩

/-- A concrete benign environment: everything valid, the encoder exits
with code 0 and creates the output file. -/
def exEnv : CompressEnv :=
  ⟨true, true, true, ⟨10, 1280, 720, "h264", false⟩, 1, 0, true, 1, true⟩

/-- Counterexample to C2 as stated: the very same combination of preset
name (web), codec override (none), alpha flag, options and metadata
yields different argument sequences on two invocations of compress on
the same compressor, because an intervening call with a vp8 override on
the same preset mutated the shared preset object. -/
theorem command_determinism_counterexample :
    (compress exState exEnv "in.mp4" "out.webm" ⟨"web", none, false, {}⟩ []).spawns ≠
      (compress
        (compress
          (compress exState exEnv "in.mp4" "out.webm" ⟨"web", none, false, {}⟩ []).state
          exEnv "in.mp4" "out.webm" ⟨"web", some "vp8", false, {}⟩ []).state
        exEnv "in.mp4" "out.webm" ⟨"web", none, false, {}⟩ []).spawns := by
  decide

/-- C2 amended: command building is deterministic as a function of the
stored preset configuration, and an immediately repeated identical call
is deterministic: running the same call again from the state the first
call left behind yields the identical outcome, spawn-for-spawn.
Determinism across arbitrary interleavings fails only when an
intervening call overrides the codec of the same shared preset, which
mutates it (see the counterexample and claim C9). -/
theorem command_determinism_amended (st : CompressorState) (env : CompressEnv)
    (input_path output_path : String) (a : SharedArgs) (fs : List String) :
    compress (compress st env input_path output_path a fs).state
        env input_path output_path a fs =
      compress st env input_path output_path a fs := by
  by_cases hin : env.input_valid = false
  · have h : compress st env input_path output_path a fs =
        ⟨.error (.invalidInput ("Input file not found: " ++ input_path)), st, fs, []⟩ := by
      unfold compress
      rw [if_pos hin]
    rw [h]
    exact h
  · by_cases hout : env.output_valid = false
    · have h : compress st env input_path output_path a fs =
          ⟨.error (.invalidOutputPath ("Invalid output path: " ++ output_path)),
           st, fs, []⟩ := by
        unfold compress
        rw [if_neg hin, if_pos hout]
      rw [h]
      exact h
    · rcases hl : lookupPreset st a.preset_name with _ | p
      · have h : compress st env input_path output_path a fs =
            ⟨.error (.invalidPreset ("Unknown preset " ++ a.preset_name)), st, fs, []⟩ := by
          unfold compress
          rw [if_neg hin, if_neg hout, hl]
        rw [h]
        unfold compress
        rw [if_neg hin, if_neg hout]
        simp only [CompressOut.mk.injEq]
        rw [hl]
      · rcases hc : a.codec with _ | c
        · have h : compress st env input_path output_path a fs =
              compressAfterOverride st env input_path output_path a fs p := by
            unfold compress
            rw [if_neg hin, if_neg hout, hl, hc]
          rw [h, compressAfterOverride_state]
          exact h
        · by_cases hv : c = "vp8" ∨ c = "vp9"
          · have h : compress st env input_path output_path a fs =
                compressAfterOverride (setPresetCodec st a.preset_name c)
                  env input_path output_path a fs { p with codec := c } := by
              unfold compress
              rw [if_neg hin, if_neg hout, hl, hc]
              dsimp only
              rw [if_pos hv]
            have h2 : compress (setPresetCodec st a.preset_name c)
                env input_path output_path a fs =
                compressAfterOverride (setPresetCodec st a.preset_name c)
                  env input_path output_path a fs { p with codec := c } := by
              unfold compress
              rw [if_neg hin, if_neg hout, lookupPreset_setPresetCodec, hl, hc]
              simp only [Option.map_some']
              rw [if_pos hv, setPresetCodec_idem]
            rw [h, compressAfterOverride_state, h2]
          · have h : compress st env input_path output_path a fs =
                ⟨.error (.invalidCodec ("Invalid codec: " ++ c)), st, fs, []⟩ := by
              unfold compress
              rw [if_neg hin, if_neg hout, hl, hc]
              dsimp only
              rw [if_neg hv]
            rw [h]
            exact h

/-! ## Claim C8 -/

/-- The outcome of the post-override phase when the encoder exits with a
nonzero code after creating the output file: the partial output is
removed from the file system when the deletion succeeds, it stays when
the deletion fails, and either way the surfaced error is the
CompressionFailedError, never a cleanup error. -/
theorem compressAfterOverride_fail (st1 : CompressorState) (env : CompressEnv)
    (input_path output_path : String) (a : SharedArgs) (fs : List String)
    (p : CompressionPreset)
    (halpha : ¬(a.preserve_alpha = true ∧ p.codec ≠ "vp9"))
    (hprobe : env.probe_ok = true)
    (hexit : env.run_exit ≠ 0)
    (hcreate : env.creates_output = true) :
    compressAfterOverride st1 env input_path output_path a fs p =
      ⟨.error (.compressionFailed
         ("FFmpeg failed with return code " ++ toString env.run_exit)),
       st1,
       if env.remove_ok then
         (output_path :: fs).filter (fun q => q ≠ output_path)
       else (output_path :: fs),
       [ffprobeCmd input_path,
        buildCommand st1.ffmpeg_path input_path output_path p
          a.preserve_alpha env.video_info a.opts]⟩ := by
  unfold compressAfterOverride
  rw [if_neg halpha, hprobe, hcreate]
  simp only [Bool.true_eq_false, if_false, reduceIte]
  rw [if_pos hexit, if_pos (List.mem_cons_self output_path fs)]

/-- The file system left by the post-override phase never gains a path
that is neither already present nor the call output path. -/
theorem compressAfterOverride_fs_not_mem (st1 : CompressorState) (env : CompressEnv)
    (input_path output_path : String) (a : SharedArgs) (fs : List String)
    (p : CompressionPreset) (pth : String)
    (hne2 : pth ≠ output_path) (hmem : pth ∉ fs) :
    pth ∉ (compressAfterOverride st1 env input_path output_path a fs p).fs := by
  have hRunCons : pth ∉ output_path :: fs := by simp [hmem, hne2]
  have hFilCons : pth ∉ (output_path :: fs).filter (fun q => q ≠ output_path) :=
    fun hIn => hRunCons (List.mem_of_mem_filter hIn)
  have hFilFs : pth ∉ fs.filter (fun q => q ≠ output_path) :=
    fun hIn => hmem (List.mem_of_mem_filter hIn)
  unfold compressAfterOverride
  repeat' split
  all_goals first
    | exact hmem
    | exact hRunCons
    | exact hFilCons
    | exact hFilFs
    | (dsimp only; split_ifs <;>
        first | exact hmem | exact hRunCons | exact hFilCons | exact hFilFs)

/-- The file system left by one compress call never gains a path that is
neither already present nor the call output path. -/
theorem compress_fs_not_mem (st : CompressorState) (env : CompressEnv)
    (input_path output_path : String) (a : SharedArgs) (fs : List String)
    (pth : String) (hne : output_path ≠ pth) (hmem : pth ∉ fs) :
    pth ∉ (compress st env input_path output_path a fs).fs := by
  have hne2 : pth ≠ output_path := Ne.symm hne
  unfold compress
  repeat' split
  all_goals first
    | exact hmem
    | exact compressAfterOverride_fs_not_mem _ env input_path output_path a fs _ pth
        hne2 hmem

/-- The file system component of a single batch job is the one compress
leaves behind. -/
theorem compressSingle_fs (st : CompressorState) (fs : List String)
    (input_path output_path : String) (a : SharedArgs) (env : CompressEnv) :
    (compressSingle st fs input_path output_path a env).2.2 =
      (compress st env input_path output_path a fs).fs := by
  unfold compressSingle
  rcases h : compress st env input_path output_path a fs with ⟨res, st', fs', sp⟩
  cases res <;> simp [h]

/-- The file system left by one job never gains a path that is neither
already present nor the job output path. -/
theorem compressSingle_fs_not_mem (st : CompressorState) (fs : List String)
    (input_path output_path : String) (a : SharedArgs) (env : CompressEnv)
    (pth : String) (hne : output_path ≠ pth) (hmem : pth ∉ fs) :
    pth ∉ (compressSingle st fs input_path output_path a env).2.2 := by
  rw [compressSingle_fs]
  exact compress_fs_not_mem st env input_path output_path a fs pth hne hmem

/-- Running more jobs never resurrects a path that none of them writes. -/
theorem runJobs_not_mem (a : SharedArgs) (pth : String)
    (jobs : List ((String × String) × CompressEnv)) :
    ∀ (st : CompressorState) (fs : List String),
    pth ∉ fs → (∀ j ∈ jobs, j.1.2 ≠ pth) →
    pth ∉ (runJobs st fs a jobs).2.2 := by
  induction jobs with
  | nil =>
    intro st fs h _
    simpa [runJobs] using h
  | cons j rest ih =>
    intro st fs hmem hjobs
    obtain ⟨⟨i, o⟩, env⟩ := j
    unfold runJobs
    rcases hcs : compressSingle st fs i o a env with ⟨r, st', fs'⟩
    rcases hrj : runJobs st' fs' a rest with ⟨rs, st2, fs2⟩
    simp only [hcs, hrj]
    have h1 : pth ∉ fs' := by
      have h2 := compressSingle_fs_not_mem st fs i o a env pth
        (hjobs _ (List.mem_cons_self _ _)) hmem
      rw [hcs] at h2
      exact h2
    have h3 := ih st' fs' h1 (fun j hj => hjobs j (List.mem_cons_of_mem _ hj))
    rw [hrj] at h3
    exact h3

/-- C8: when a compress call reaches the encoder run with effective
preset p, the encoder creates the output file and exits with a nonzero
code, then the surfaced failure is the CompressionFailedError and never
a cleanup error; when the deletion succeeds the output path is gone from
the file system the call returns; the batch boundary converts the
failure into a failed result; and after the remaining jobs of a batch
run, none of which writes that path, the partial output still does not
exist on disk. -/
theorem cleanup_on_failure (st st1 : CompressorState) (env : CompressEnv)
    (input_path output_path : String) (a : SharedArgs) (fs : List String)
    (p : CompressionPreset)
    (hreach : compress st env input_path output_path a fs =
      compressAfterOverride st1 env input_path output_path a fs p)
    (halpha : ¬(a.preserve_alpha = true ∧ p.codec ≠ "vp9"))
    (hprobe : env.probe_ok = true)
    (hexit : env.run_exit ≠ 0)
    (hcreate : env.creates_output = true) :
    (compress st env input_path output_path a fs).result =
      .error (.compressionFailed
        ("FFmpeg failed with return code " ++ toString env.run_exit)) ∧
    (env.remove_ok = true →
      output_path ∉ (compress st env input_path output_path a fs).fs) ∧
    (compressSingle st fs input_path output_path a env).1.success = false ∧
    (compressSingle st fs input_path output_path a env).1.error =
      some ("FFmpeg failed with return code " ++ toString env.run_exit) ∧
    (∀ post : List ((String × String) × CompressEnv),
      (∀ j ∈ post, j.1.2 ≠ output_path) → env.remove_ok = true →
      output_path ∉
        (runJobs (compressSingle st fs input_path output_path a env).2.1
          (compressSingle st fs input_path output_path a env).2.2 a post).2.2) := by
  have hfail := compressAfterOverride_fail st1 env input_path output_path a fs p
    halpha hprobe hexit hcreate
  have hcmp : compress st env input_path output_path a fs =
      ⟨.error (.compressionFailed
         ("FFmpeg failed with return code " ++ toString env.run_exit)),
       st1,
       if env.remove_ok then
         (output_path :: fs).filter (fun q => q ≠ output_path)
       else (output_path :: fs),
       [ffprobeCmd input_path,
        buildCommand st1.ffmpeg_path input_path output_path p
          a.preserve_alpha env.video_info a.opts]⟩ := hreach.trans hfail
  have hnotmem : env.remove_ok = true →
      output_path ∉ (compress st env input_path output_path a fs).fs := by
    intro hrm
    rw [hcmp]
    simp [hrm, List.mem_filter]
  have hsingle : compressSingle st fs input_path output_path a env =
      ({ success := false, input_path := input_path, output_path := output_path,
         error := some ("FFmpeg failed with return code " ++ toString env.run_exit) },
       st1,
       if env.remove_ok then
         (output_path :: fs).filter (fun q => q ≠ output_path)
       else (output_path :: fs)) := by
    unfold compressSingle
    rw [hcmp]
    rfl
  refine ⟨by rw [hcmp], hnotmem, by rw [hsingle], by rw [hsingle], ?_⟩
  intro post hpost hrm
  rw [hsingle]
  refine runJobs_not_mem a output_path post st1 _ ?_ hpost
  rw [hrm]
  simp [List.mem_filter]

/-- A concrete failing environment: the encoder creates the output file
and exits with code 1; the cleanup deletion succeeds. -/
def exEnvFail : CompressEnv :=
  ⟨true, true, true, ⟨10, 1280, 720, "h264", false⟩, 1, 1, true, 1, true⟩

/-- Witness for C8: a failing job on the web preset followed by a second
job with a different output path; the partial output file is gone. -/
theorem cleanup_on_failure_witness :
    (compress exState exEnvFail "in.mp4" "out.webm" ⟨"web", none, false, {}⟩ []).result =
      .error (.compressionFailed ("FFmpeg failed with return code " ++ toString (1 : Int))) ∧
    "out.webm" ∉ (compress exState exEnvFail "in.mp4" "out.webm"
      ⟨"web", none, false, {}⟩ []).fs ∧
    (compressSingle exState [] "in.mp4" "out.webm" ⟨"web", none, false, {}⟩ exEnvFail).1.success
      = false ∧
    "out.webm" ∉
      (runJobs (compressSingle exState [] "in.mp4" "out.webm"
          ⟨"web", none, false, {}⟩ exEnvFail).2.1
        (compressSingle exState [] "in.mp4" "out.webm"
          ⟨"web", none, false, {}⟩ exEnvFail).2.2
        ⟨"web", none, false, {}⟩
        [(("in2.mp4", "out2.webm"), exEnv)]).2.2 := by
  have h := cleanup_on_failure exState exState exEnvFail "in.mp4" "out.webm"
    ⟨"web", none, false, {}⟩ [] ((PRESETS.map Prod.snd).get ⟨0, by decide⟩)
    (by rfl) (by decide) rfl (by decide) rfl
  exact ⟨h.1, h.2.1 rfl, h.2.2.1,
    h.2.2.2.2 [(("in2.mp4", "out2.webm"), exEnv)] (by decide) rfl⟩

/-! ## Claim C1 -/

theorem build_file_pairs_length (files : List (String ⊕ (String × String)))
    (output_dir : Option String) (pairs : List (String × String))
    (h : build_file_pairs files output_dir = .ok pairs) :
    pairs.length = files.length := by
  induction files generalizing pairs with
  | nil =>
    simp only [build_file_pairs] at h
    cases h
    rfl
  | cons f rest ih =>
    rcases f with i | ⟨i, o⟩
    · rcases output_dir with _ | d
      · simp [build_file_pairs] at h
      · simp only [build_file_pairs] at h
        rcases hr : build_file_pairs rest (some d) with e | ps
        · rw [hr] at h; cases h
        · rw [hr] at h
          cases h
          simp [ih ps hr]
    · simp only [build_file_pairs] at h
      rcases hr : build_file_pairs rest output_dir with e | ps
      · rw [hr] at h; cases h
      · rw [hr] at h
        cases h
        simp [ih ps hr]

/-- The input path of a successful compress result is the input path of
the call. -/
theorem compress_ok_input (st : CompressorState) (env : CompressEnv)
    (input_path output_path : String) (a : SharedArgs) (fs : List String)
    (r : CompressionResult)
    (h : (compress st env input_path output_path a fs).result = .ok r) :
    r.input_path = input_path := by
  unfold compress compressAfterOverride at h
  repeat' split at h
  all_goals try simp_all [apply_ite CompressOut.result, ite_eq_iff]
  all_goals (obtain ⟨-, h2⟩ := h; rw [← h2])

/-- Every single-job result is tagged with the input path of the job. -/
theorem compressSingle_input_path (st : CompressorState) (fs : List String)
    (input_path output_path : String) (a : SharedArgs) (env : CompressEnv) :
    ((compressSingle st fs input_path output_path a env).1).input_path = input_path := by
  unfold compressSingle
  rcases h : compress st env input_path output_path a fs with ⟨res, st', fs', sp⟩
  cases res with
  | ok r =>
    have : r.input_path = input_path :=
      compress_ok_input st env input_path output_path a fs r (by rw [h])
    simpa using this
  | error e => simp

/-- A raised exception becomes a failed result at the per-job boundary. -/
theorem compressSingle_catches (st : CompressorState) (fs : List String)
    (input_path output_path : String) (a : SharedArgs) (env : CompressEnv)
    (e : VCError)
    (h : (compress st env input_path output_path a fs).result = .error e) :
    ((compressSingle st fs input_path output_path a env).1).success = false ∧
    ((compressSingle st fs input_path output_path a env).1).error =
      some (errMessage e) := by
  unfold compressSingle
  rcases hc : compress st env input_path output_path a fs with ⟨res, st', fs', sp⟩
  rw [hc] at h
  simp only at h
  subst h
  simp

/-- One result per job, in submission order, each tagged with its job
input path. -/
theorem runJobs_spec (a : SharedArgs) (jobs : List ((String × String) × CompressEnv)) :
    ∀ (st : CompressorState) (fs : List String),
    ((runJobs st fs a jobs).1).length = jobs.length ∧
    ∀ k, k < jobs.length →
      (((runJobs st fs a jobs).1).getD k defaultResult).input_path =
        (jobs.getD k (("", ""), exEnv)).1.1 := by
  induction jobs with
  | nil =>
    intro st fs
    simp [runJobs]
  | cons j rest ih =>
    intro st fs
    obtain ⟨⟨i, o⟩, env⟩ := j
    unfold runJobs
    rcases hcs : compressSingle st fs i o a env with ⟨r, st', fs'⟩
    rcases hrj : runJobs st' fs' a rest with ⟨rs, st2, fs2⟩
    have hih := ih st' fs'
    rw [hrj] at hih
    simp only [hcs, hrj]
    constructor
    · simpa using hih.1
    · intro k hk
      cases k with
      | zero =>
        have hi : r.input_path = i := by
          have h2 := compressSingle_input_path st fs i o a env
          rw [hcs] at h2
          exact h2
        simpa [List.getD] using hi
      | succ k2 =>
        have hk2 : k2 < rest.length := by simpa using hk
        simpa [List.getD] using hih.2 k2 hk2

/-- C1: a batch over N submitted jobs with any mix of succeeding and
failing jobs returns exactly N results collected in any completion
order, the multiset of input-path tags of the results is exactly the
multiset of submitted input paths, and at the per-job boundary every
raised error of every kind becomes a failed result tagged with its
paths, so no exception crosses the batch boundary. -/
theorem batch_results_complete (st : CompressorState) (fs : List String)
    (files : List (String ⊕ (String × String))) (output_dir : Option String)
    (a : SharedArgs) (envs : List CompressEnv) (perm : List Nat)
    (pairs : List (String × String))
    (hp : build_file_pairs files output_dir = .ok pairs)
    (hl : envs.length = pairs.length)
    (hperm : perm.Perm (List.range pairs.length)) :
    ∃ results, compress_batch st fs files output_dir a envs perm = .ok results ∧
      results.length = files.length ∧
      (results.map (fun r => r.input_path)).Perm (pairs.map Prod.fst) ∧
      (∀ (st2 : CompressorState) (fs2 : List String) (i o : String)
          (env : CompressEnv),
        ((compressSingle st2 fs2 i o a env).1).input_path = i ∧
        ∀ e, (compress st2 env i o a fs2).result = .error e →
          ((compressSingle st2 fs2 i o a env).1).success = false ∧
          ((compressSingle st2 fs2 i o a env).1).error = some (errMessage e)) := by
  have hN : pairs.length = files.length := build_file_pairs_length files output_dir pairs hp
  have hjobs : (pairs.zip envs).length = pairs.length := by
    rw [List.length_zip, hl, min_self]
  set rs := (runJobs st fs a (pairs.zip envs)).1 with hrs
  have hspec := runJobs_spec a (pairs.zip envs) st fs
  refine ⟨perm.map (fun k => rs.getD k defaultResult), ?_, ?_, ?_, ?_⟩
  · unfold compress_batch
    rw [hp]
  · rw [List.length_map, hperm.length_eq, List.length_range, hN]
  · rw [List.map_map]
    have hcongr : perm.map ((fun r => r.input_path) ∘ (fun k => rs.getD k defaultResult)) =
        perm.map (fun k => (pairs.getD k ("", "")).1) := by
      refine List.map_congr_left ?_
      intro k hk
      have hkN : k < pairs.length := by
        have := (hperm.mem_iff).mp hk
        simpa using this
      have h1 := hspec.2 k (by rwa [hjobs])
      rw [← hrs] at h1
      have h2 : ((pairs.zip envs).getD k (("", ""), exEnv)).1.1 =
          (pairs.getD k ("", "")).1 := by
        have hkz : k < (pairs.zip envs).length := by rwa [hjobs]
        rw [List.getD_eq_get _ _ hkz, List.getD_eq_get _ _ hkN]
        rw [List.get_zip]
      simp only [Function.comp]
      rw [h1, h2]
    rw [hcongr]
    have hmap : (List.range pairs.length).map (fun k => (pairs.getD k ("", "")).1) =
        pairs.map Prod.fst := by
      refine List.ext_get (by simp) ?_
      intro n h1 h2
      simp only [List.get_map, List.get_range]
      rw [List.getD_eq_get _ _ (by simpa using h1)]
    exact hmap ▸ (hperm.map fun k => (pairs.getD k ("", "")).1)
  · intro st2 fs2 i o env
    exact ⟨compressSingle_input_path st2 fs2 i o a env,
      fun e he => compressSingle_catches st2 fs2 i o a env e he⟩

/-- Witness for C1: a two-job batch, one bare input path and one
explicit pair, one succeeding and one failing job, collected in reversed
completion order. -/
theorem batch_results_complete_witness :
    ∃ results,
      compress_batch exState [] [Sum.inl "a.mp4", Sum.inr ("b.mp4", "b.webm")]
        (some "out") ⟨"web", none, false, {}⟩ [exEnv, exEnvFail] [1, 0] =
        .ok results ∧
      results.length = 2 ∧
      (results.map (fun r => r.input_path)).Perm ["a.mp4", "b.mp4"] ∧
      (∀ (st2 : CompressorState) (fs2 : List String) (i o : String)
          (env : CompressEnv),
        ((compressSingle st2 fs2 i o ⟨"web", none, false, {}⟩ env).1).input_path = i ∧
        ∀ e, (compress st2 env i o ⟨"web", none, false, {}⟩ fs2).result = .error e →
          ((compressSingle st2 fs2 i o ⟨"web", none, false, {}⟩ env).1).success = false ∧
          ((compressSingle st2 fs2 i o ⟨"web", none, false, {}⟩ env).1).error =
            some (errMessage e)) :=
  batch_results_complete exState [] [Sum.inl "a.mp4", Sum.inr ("b.mp4", "b.webm")]
    (some "out") ⟨"web", none, false, {}⟩ [exEnv, exEnvFail] [1, 0]
    [("a.mp4", "out/a.webm"), ("b.mp4", "b.webm")] (by rfl) rfl (by decide)

/-! ## Claim C7 -/

/-- Counterexample to C7 as stated: on a BatchProgress built for one
file, reporting 100 percent for two distinct filenames drives
completed_files to 2, which exceeds total_files, so the property does
not hold for every sequence of update_file_progress calls. -/
theorem completed_files_counterexample :
    (runBP (initBP 1) [("a", 100), ("b", 100)]).completed_files = 2 ∧
    ¬ ((runBP (initBP 1) [("a", 100), ("b", 100)]).completed_files ≤
        (initBP 1).total_files) := by
  constructor
  · decide
  · decide

/-- The number of recorded files at or above 100 percent. -/
def countGE (l : List (String × ℚ)) : Nat :=
  (l.filter (fun e => 100 ≤ e.2)).length

/-- The percentages reported for one file, in call order. -/
def percentagesOf (calls : List (String × ℚ)) (f : String) : List ℚ :=
  calls.filterMap (fun c => if c.1 = f then some c.2 else none)

theorem getFP_setFP_same (l : List (String × ℚ)) (f : String) (p : ℚ) :
    getFP (setFP l f p) f = p := by
  induction l with
  | nil => simp [setFP, getFP]
  | cons kv rest ih =>
    obtain ⟨k, v⟩ := kv
    by_cases h : k = f <;> simp [setFP, getFP, h, ih]

theorem getFP_setFP_other (l : List (String × ℚ)) (f g : String) (p : ℚ)
    (h : g ≠ f) : getFP (setFP l f p) g = getFP l g := by
  induction l with
  | nil => simp [setFP, getFP, Ne.symm h]
  | cons kv rest ih =>
    obtain ⟨k, v⟩ := kv
    by_cases hk : k = f
    · subst hk
      simp [setFP, getFP, Ne.symm h, ih]
    · by_cases hg : k = g <;> simp [setFP, getFP, hk, hg, ih, h, Ne.symm h]

/-- Overwriting a recorded percentage with a value at least as large
changes the at-least-100 count exactly at an upward crossing. -/
theorem countGE_setFP_mono (l : List (String × ℚ)) (f : String) (p : ℚ)
    (hmono : getFP l f ≤ p) :
    countGE (setFP l f p) =
      if getFP l f < 100 ∧ 100 ≤ p then countGE l + 1 else countGE l := by
  induction l with
  | nil =>
    by_cases hp : (100 : ℚ) ≤ p
    · rw [if_pos ⟨by norm_num [getFP], hp⟩]
      simp [setFP, countGE, List.filter_cons, hp]
    · rw [if_neg (fun hc => hp hc.2)]
      simp [setFP, countGE, List.filter_cons, hp]
  | cons kv rest ih =>
    obtain ⟨k, v⟩ := kv
    by_cases hk : k = f
    · subst hk
      have hvp : v ≤ p := by simpa [getFP] using hmono
      have hset : setFP ((k, v) :: rest) k p = (k, p) :: rest := by simp [setFP]
      have hget : getFP ((k, v) :: rest) k = v := by simp [getFP]
      rw [hset, hget]
      by_cases hv : (100 : ℚ) ≤ v
      · have hp : (100 : ℚ) ≤ p := le_trans hv hvp
        rw [if_neg (fun hc => absurd hv (not_le.mpr hc.1))]
        simp [countGE, List.filter_cons, hv, hp]
      · by_cases hp : (100 : ℚ) ≤ p
        · rw [if_pos ⟨not_le.mp hv, hp⟩]
          simp [countGE, List.filter_cons, hv, hp]
        · rw [if_neg (fun hc => hp hc.2)]
          simp [countGE, List.filter_cons, hv, hp]
    · have hm2 : getFP rest f ≤ p := by simpa [getFP, hk] using hmono
      have hrec := ih hm2
      have hset : setFP ((k, v) :: rest) f p = (k, v) :: setFP rest f p := by
        simp [setFP, hk]
      have hget : getFP ((k, v) :: rest) f = getFP rest f := by simp [getFP, hk]
      rw [hset, hget]
      by_cases hc : getFP rest f < 100 ∧ 100 ≤ p
      · rw [if_pos hc]
        rw [if_pos hc] at hrec
        by_cases hv : (100 : ℚ) ≤ v <;>
          simp [countGE, List.filter_cons, hv] <;>
          simpa [countGE] using hrec
      · rw [if_neg hc]
        rw [if_neg hc] at hrec
        by_cases hv : (100 : ℚ) ≤ v <;>
          simp [countGE, List.filter_cons, hv] <;>
          simpa [countGE] using hrec

theorem setFP_keys (l : List (String × ℚ)) (f : String) (p : ℚ) :
    (setFP l f p).map Prod.fst =
      if f ∈ l.map Prod.fst then l.map Prod.fst else l.map Prod.fst ++ [f] := by
  induction l with
  | nil => simp [setFP]
  | cons kv rest ih =>
    obtain ⟨k, v⟩ := kv
    by_cases hk : k = f
    · subst hk
      simp [setFP]
    · simp only [setFP, if_neg hk, List.map_cons, ih]
      by_cases hm : f ∈ rest.map Prod.fst
      · rw [if_pos hm, if_pos (by simp [hm])]
      · rw [if_neg hm, if_neg (by simp [hm, Ne.symm hk])]
        simp

theorem setFP_keys_nodup (l : List (String × ℚ)) (f : String) (p : ℚ)
    (h : (l.map Prod.fst).Nodup) : ((setFP l f p).map Prod.fst).Nodup := by
  rw [setFP_keys]
  by_cases hm : f ∈ l.map Prod.fst
  · rwa [if_pos hm]
  · rw [if_neg hm]
    simp [List.nodup_append, h, hm]

/-- The fold invariant: starting from a state whose completed count
equals its at-least-100 count, with per-file non-decreasing reported
percentages, the equality persists, keys stay distinct, and new keys
come only from the calls. -/
theorem runBP_invariant (calls : List (String × ℚ)) :
    ∀ bp : BatchProgressS,
    bp.completed_files = countGE bp.file_progress →
    ((bp.file_progress.map Prod.fst).Nodup) →
    (∀ f, List.Chain' (· ≤ ·) (getFP bp.file_progress f :: percentagesOf calls f)) →
    (runBP bp calls).completed_files = countGE (runBP bp calls).file_progress ∧
    ((runBP bp calls).file_progress.map Prod.fst).Nodup ∧
    (∀ g, g ∈ (runBP bp calls).file_progress.map Prod.fst →
      g ∈ bp.file_progress.map Prod.fst ∨ g ∈ calls.map Prod.fst) ∧
    (runBP bp calls).total_files = bp.total_files := by
  induction calls with
  | nil =>
    intro bp h1 h2 _
    exact ⟨h1, h2, fun g hg => Or.inl hg, rfl⟩
  | cons c rest ih =>
    intro bp h1 h2 hchain
    obtain ⟨f, p⟩ := c
    have hcf := hchain f
    simp only [percentagesOf, List.filterMap_cons, if_pos rfl] at hcf
    have hmono : getFP bp.file_progress f ≤ p := List.chain'_cons.mp hcf |>.1
    set bp' := update_file_progress bp f p with hbp'
    have h1' : bp'.completed_files = countGE bp'.file_progress := by
      rw [hbp']
      unfold update_file_progress
      simp only
      rw [countGE_setFP_mono bp.file_progress f p hmono, h1]
    have h2' : (bp'.file_progress.map Prod.fst).Nodup :=
      setFP_keys_nodup bp.file_progress f p h2
    have hchain' : ∀ g, List.Chain' (· ≤ ·)
        (getFP bp'.file_progress g :: percentagesOf rest g) := by
      intro g
      by_cases hg : g = f
      · subst hg
        rw [hbp']
        unfold update_file_progress
        simp only
        rw [getFP_setFP_same]
        exact (List.chain'_cons.mp hcf).2
      · have hfg : f ≠ g := Ne.symm hg
        rw [hbp']
        unfold update_file_progress
        simp only
        rw [getFP_setFP_other _ _ _ _ hg]
        have := hchain g
        simpa [percentagesOf, List.filterMap_cons, hfg] using this
    have hrec := ih bp' h1' h2' hchain'
    refine ⟨?_, ?_, ?_, ?_⟩
    · simpa [runBP] using hrec.1
    · simpa [runBP] using hrec.2.1
    · intro g hg
      have := hrec.2.2.1 g (by simpa [runBP] using hg)
      rcases this with hin | hin
      · rw [hbp'] at hin
        unfold update_file_progress at hin
        simp only at hin
        rw [setFP_keys] at hin
        by_cases hm : f ∈ bp.file_progress.map Prod.fst
        · rw [if_pos hm] at hin
          exact Or.inl hin
        · rw [if_neg hm] at hin
          rcases List.mem_append.mp hin with h | h
          · exact Or.inl h
          · simp at h
            subst h
            exact Or.inr (by simp)
      · exact Or.inr (by simp [hin])
    · simpa [runBP] using hrec.2.2.2

/-- C7 amended: completed_files never decreases, stepwise and over any
sequence of calls; and under the conditions the batch machinery
provides, namely per-file non-decreasing percentages and at most
total_files distinct filenames, completed_files equals the number of
distinct files recorded at or above 100 percent, so it is incremented
exactly once per job at its first crossing and never exceeds
total_files.  Without those conditions the bound fails, see the
counterexample. -/
theorem completed_files_amended (n : Nat) (calls : List (String × ℚ)) :
    (∀ (bp : BatchProgressS) (f : String) (p : ℚ),
      bp.completed_files ≤ (update_file_progress bp f p).completed_files) ∧
    (∀ bp : BatchProgressS,
      bp.completed_files ≤ (runBP bp calls).completed_files) ∧
    ((∀ f, List.Chain' (· ≤ ·) ((0 : ℚ) :: percentagesOf calls f)) →
      (calls.map Prod.fst).dedup.length ≤ n →
      (runBP (initBP n) calls).completed_files =
        countGE (runBP (initBP n) calls).file_progress ∧
      (runBP (initBP n) calls).completed_files ≤ n) := by
  have hstep : ∀ (bp : BatchProgressS) (f : String) (p : ℚ),
      bp.completed_files ≤ (update_file_progress bp f p).completed_files := by
    intro bp f p
    unfold update_file_progress
    simp only
    split <;> omega
  have hrun : ∀ (cs : List (String × ℚ)) (bp : BatchProgressS),
      bp.completed_files ≤ (runBP bp cs).completed_files := by
    intro cs
    induction cs with
    | nil => intro bp; simp [runBP]
    | cons c rest ih =>
      intro bp
      obtain ⟨f, p⟩ := c
      have h1 := hstep bp f p
      have h2 := ih (update_file_progress bp f p)
      simp only [runBP]
      exact le_trans h1 h2
  refine ⟨hstep, hrun calls, ?_⟩
  intro hch hb
  have hinv := runBP_invariant calls (initBP n)
    (by simp [initBP, countGE])
    (by simp [initBP])
    (by intro f; simpa [initBP, getFP] using hch f)
  refine ⟨hinv.1, ?_⟩
  set fp := (runBP (initBP n) calls).file_progress with hfp
  have hsub : ∀ g, g ∈ fp.map Prod.fst → g ∈ calls.map Prod.fst := by
    intro g hg
    rcases hinv.2.2.1 g hg with h | h
    · simp [initBP] at h
    · exact h
  have hnd : (fp.map Prod.fst).Nodup := hinv.2.1
  have h1 : countGE fp ≤ fp.length := List.length_filter_le _ _
  have h2 : fp.length = (fp.map Prod.fst).length := (List.length_map _ _).symm
  have h3 : (fp.map Prod.fst).length = (fp.map Prod.fst).toFinset.card :=
    (List.toFinset_card_of_nodup hnd).symm
  have h4 : (fp.map Prod.fst).toFinset ⊆ (calls.map Prod.fst).toFinset := by
    intro x hx
    rw [List.mem_toFinset] at hx ⊢
    exact hsub x hx
  have h5 : (fp.map Prod.fst).toFinset.card ≤ (calls.map Prod.fst).toFinset.card :=
    Finset.card_le_card h4
  have h6 : (calls.map Prod.fst).toFinset.card = (calls.map Prod.fst).dedup.length :=
    List.card_toFinset _
  rw [hinv.1]
  omega

/-- Witness for C7: two files with monotone percentages on a
BatchProgress for two files; the count reaches 2 and stays within
bounds. -/
theorem completed_files_amended_witness :
    (initBP 2).completed_files ≤
      (update_file_progress (initBP 2) "a" 50).completed_files ∧
    (initBP 2).completed_files ≤
      (runBP (initBP 2) [("a", 50), ("a", 100), ("b", 100)]).completed_files ∧
    ((runBP (initBP 2) [("a", 50), ("a", 100), ("b", 100)]).completed_files =
      countGE (runBP (initBP 2) [("a", 50), ("a", 100), ("b", 100)]).file_progress ∧
     (runBP (initBP 2) [("a", 50), ("a", 100), ("b", 100)]).completed_files ≤ 2) :=
  have h := completed_files_amended 2 [("a", 50), ("a", 100), ("b", 100)]
  ⟨h.1 (initBP 2) "a" 50, h.2.1 (initBP 2),
   h.2.2
     (by
       intro f
       by_cases hfa : f = "a"
       · subst hfa
         simp only [percentagesOf, List.filterMap_cons, List.filterMap_nil,
           String.reduceEq, reduceIte]
         norm_num [List.chain'_cons]
       · by_cases hfb : f = "b"
         · subst hfb
           simp only [percentagesOf, List.filterMap_cons, List.filterMap_nil,
             String.reduceEq, reduceIte]
           norm_num [List.chain'_cons]
         · have h1 : "a" ≠ f := fun hh => hfa hh.symm
           have h2 : "b" ≠ f := fun hh => hfb hh.symm
           simp [percentagesOf, h1, h2])
     (by decide)⟩

end VC
